import Mathlib

/-!
Verification development for the response normalization and enrichment pipeline
of a Slack MCP server (src/index.ts).

The development shallowly embeds the pipeline:

* `Json` models untyped JSON payloads (JSON numbers are modelled as integers;
  the pipeline never inspects numeric values, it only matches string values).
* `convertTimestampsToISO` embeds `SlackClient.convertTimestampsToISO`
  (src/index.ts lines 297-321).  JavaScript `new Date(t).toISOString()` throws a
  `RangeError` when `|t| > 8.64e15` ms; the embedding returns `Option Json`,
  `none` modelling the thrown exception.  `parseFloat` on a string matching
  `^\d+(\.\d+)?$` followed by `* 1000` and truncation is modelled exactly on the
  decimal digits (`msOfTsString`).
* `enrichWithUserInfo` embeds `SlackClient.enrichWithUserInfo` (lines 323-350),
  with the memoized resolver abstracted as a pure function
  `R : String → IdRecord` (the memoized lookup is deterministic per identifier
  for the lifetime of the client, see the resolver model below).
* `resolverStep`/`runResolver` model the promise cache of the `p-memoize`
  wrapper around `memoizedGetUser` (lines 276-294): a `request` event is a
  caller arriving (it fetches only when the identifier is neither in flight nor
  cached, exactly like `pMemoize`, which stores the in-flight promise
  synchronously before the first await), a `settle` event is the in-flight
  lookup resolving and being recorded in the result cache.
* `getUserRecord`/`resolveOnce` model one full resolution through
  `memoizedGetUser`: the name-preference chain
  `display_name || real_name || name || userId`, the degraded record on
  failure, and the cache behaviour of a sequential second call.
* `handleTool`/`callTool` embed the `CallToolRequest` handler
  (lines 548-711): argument presence checks use JavaScript truthiness, the
  result is piped through the normalizer (and for the three message-reading
  tools also the enricher) and serialized by `jsonStringify`, and every thrown
  error is caught and converted to an `{"error": ...}` payload
  (`Except.error` models `throw`).
* `NormRel` is a specification-side relation, written from the words of the
  specification of the Timestamp Normalizer, against which the embedded
  normalizer is checked.
-/

set_option maxHeartbeats 1000000

/-- Untyped JSON tree, as produced by `response.json()`.  Objects are modelled
as association lists in insertion order with distinct keys. -/
inductive Json where
  | null : Json
  | bool (b : Bool) : Json
  | num (n : Int) : Json
  | str (s : String) : Json
  | arr (elems : List Json) : Json
  | obj (fields : List (String × Json)) : Json
deriving Repr

/-- Property access `obj[k]`: first binding of key `k`, `none` models
`undefined`. -/
def getField : List (String × Json) → String → Option Json
  | [], _ => none
  | (k', v) :: rest, k => if k' = k then some v else getField rest k

/-- Property assignment `obj[k] = v`: replaces the binding in place when the
key exists (JavaScript keeps the key position), otherwise appends it. -/
def setField : List (String × Json) → String → Json → List (String × Json)
  | [], k, v => [(k, v)]
  | (k', v') :: rest, k, v =>
    if k' = k then (k, v) :: rest else (k', v') :: setField rest k v

/-- JavaScript truthiness of a JSON value. -/
def jsTruthy : Json → Bool
  | .null => false
  | .bool b => b
  | .num n => n ≠ 0
  | .str s => s ≠ ""
  | .arr _ => true
  | .obj _ => true

/-- Truthiness of a property access (`undefined` is falsy). -/
def truthyOpt : Option Json → Bool
  | none => false
  | some v => jsTruthy v

/-- The key suffix test `key.endsWith('_ts')`. -/
def isTsSuffix (k : String) : Bool :=
  match k.data.reverse with
  | 's' :: 't' :: '_' :: _ => true
  | _ => false

/-- The timestamp-key test of src/index.ts line 309:
`key === 'ts' || key === 'thread_ts' || key === 'timestamp' ||
key.endsWith('_ts')`. -/
def isTsKey (k : String) : Bool :=
  k = "ts" || k = "thread_ts" || k = "timestamp" || isTsSuffix k

/-- The numeric-string predicate `/^\d+(\.\d+)?$/.test value` of line 310. -/
def isNumericTs (s : String) : Bool :=
  let cs := s.data
  let intp := cs.takeWhile Char.isDigit
  let rest := cs.dropWhile Char.isDigit
  intp ≠ [] && (match rest with
    | [] => true
    | '.' :: fs => fs ≠ [] && fs.all Char.isDigit
    | _ => false)

/-- Value of a list of decimal digits. -/
def natOfDigits (cs : List Char) : Nat :=
  cs.foldl (fun a c => a * 10 + (c.toNat - 48)) 0

/-- Milliseconds value of `parseFloat value * 1000` truncated to an integer
(the truncation performed by the `Date` constructor), computed exactly on the
digits of a string matching `^\d+(\.\d+)?$`: integer part times 1000 plus the
first three fractional digits. -/
def msOfTsString (s : String) : Nat :=
  let cs := s.data
  let intp := cs.takeWhile Char.isDigit
  let frac : List Char :=
    match cs.dropWhile Char.isDigit with
    | '.' :: fs => fs
    | _ => []
  natOfDigits intp * 1000 + natOfDigits ((frac ++ ['0', '0', '0']).take 3)

/-- Decimal rendering of `n` left-padded with zeros to width `w`. -/
def padNat (w : Nat) (n : Nat) : String :=
  let s := Nat.repr n
  String.mk (List.replicate (w - s.length) '0') ++ s

/-- `new Date(ms).toISOString()` for a non-negative epoch-millisecond value:
`YYYY-MM-DDTHH:mm:ss.sssZ`, with the six-digit `+YYYYYY` year form beyond year
9999.  The civil-date computation is the standard days-to-civil algorithm. -/
def isoOfMs (ms : Nat) : String :=
  let days := ms / 86400000
  let msOfDay := ms % 86400000
  let hh := msOfDay / 3600000
  let mi := msOfDay % 3600000 / 60000
  let ss := msOfDay % 60000 / 1000
  let mmm := msOfDay % 1000
  let z := days + 719468
  let era := z / 146097
  let doe := z % 146097
  let yoe := (doe - doe / 1460 + doe / 36524 - doe / 146096) / 365
  let doy := doe - (365 * yoe + yoe / 4 - yoe / 100)
  let mp := (5 * doy + 2) / 153
  let d := doy - (153 * mp + 2) / 5 + 1
  let m := if mp < 10 then mp + 3 else mp - 9
  let y := yoe + era * 400 + (if m ≤ 2 then 1 else 0)
  let ystr := if y ≤ 9999 then padNat 4 y else "+" ++ padNat 6 y
  ystr ++ "-" ++ padNat 2 m ++ "-" ++ padNat 2 d ++ "T" ++
    padNat 2 hh ++ ":" ++ padNat 2 mi ++ ":" ++ padNat 2 ss ++ "." ++ padNat 3 mmm ++ "Z"

/-- `new Date(parseFloat value * 1000).toISOString()` for a numeric timestamp
string: `none` models the `RangeError` thrown by `toISOString` on an invalid
`Date` (epoch milliseconds beyond `8.64e15`). -/
def isoOfTsString (s : String) : Option String :=
  if msOfTsString s ≤ 8640000000000000 then some (isoOfMs (msOfTsString s)) else none

mutual
/-- Embedding of `SlackClient.convertTimestampsToISO` (src/index.ts 297-321).
`none` models an escaping `RangeError`.  Strings, numbers and booleans fall
through unchanged; `null` is returned as is; arrays are mapped element-wise;
objects are mapped field-wise by `convertFields`. -/
def convertTimestampsToISO : Json → Option Json
  | .null => some .null
  | .bool b => some (.bool b)
  | .num n => some (.num n)
  | .str s => some (.str s)
  | .arr l => Option.map Json.arr (convertElems l)
  | .obj kvs => Option.map Json.obj (convertFields kvs)

/-- Element-wise conversion of an array (`obj.map(item => this.convertTimestampsToISO(item))`). -/
def convertElems : List Json → Option (List Json)
  | [] => some []
  | x :: xs =>
    match convertTimestampsToISO x, convertElems xs with
    | some x', some xs' => some (x' :: xs')
    | _, _ => none

/-- Field-wise conversion of an object (`for (const [key, value] of Object.entries(converted))`). -/
def convertFields : List (String × Json) → Option (List (String × Json))
  | [] => some []
  | (k, v) :: rest =>
    match convertEntry k v, convertFields rest with
    | some w, some rest' => some ((k, w) :: rest')
    | _, _ => none

/-- Body of the conversion loop for one `[key, value]` entry: a string value
under a recognized timestamp key that passes the numeric predicate is replaced
by the ISO instant; objects, arrays and `null` (all `typeof value === 'object'`)
are recursed into; everything else is left unchanged. -/
def convertEntry (k : String) : Json → Option Json
  | .str s =>
    if isTsKey k && isNumericTs s then Option.map Json.str (isoOfTsString s)
    else some (.str s)
  | .null => some .null
  | .arr l => Option.map Json.arr (convertElems l)
  | .obj kvs => Option.map Json.obj (convertFields kvs)
  | v => some v
end

/-- Resolved identity: the `{displayName, username}` record produced by
`memoizedGetUser`. -/
structure IdRecord where
  displayName : String
  username : String
deriving Repr, DecidableEq

/-- The user-identifier pattern `/^U[A-Z0-9]+$/` of src/index.ts line 336. -/
def isUserId (s : String) : Bool :=
  match s.data with
  | 'U' :: rest => rest ≠ [] && rest.all (fun c => c.isUpper || c.isDigit)
  | _ => false

/-- The enrichment check and field assignments of src/index.ts lines 335-340:
if the object has a truthy string `user` field matching the identifier pattern
and `user_display_name` is falsy (absent or falsy value), assign
`user_display_name` and then `user_username` from the resolved record. -/
def addUserInfoFields (R : String → IdRecord) (kvs : List (String × Json)) :
    List (String × Json) :=
  match getField kvs "user" with
  | some (.str s) =>
    if s ≠ "" && isUserId s && !(truthyOpt (getField kvs "user_display_name")) then
      setField (setField kvs "user_display_name" (.str (R s).displayName))
        "user_username" (.str (R s).username)
    else kvs
  | _ => kvs

mutual
/-- Size measure for the enrichment recursion: leaves weigh nothing, so that
assigning string-valued fields cannot increase the measure beyond the weight
of the enclosing object. -/
def jsize : Json → Nat
  | .obj kvs => 3 + jsizeFields kvs
  | .arr l => 1 + jsizeElems l
  | _ => 0

/-- Size measure of an array's elements. -/
def jsizeElems : List Json → Nat
  | [] => 0
  | x :: xs => 1 + jsize x + jsizeElems xs

/-- Size measure of an object's fields. -/
def jsizeFields : List (String × Json) → Nat
  | [] => 0
  | (_, v) :: rest => 1 + jsize v + jsizeFields rest
end

theorem jsizeFields_setField_str (l : List (String × Json)) (k : String) (s : String) :
    jsizeFields (setField l k (.str s)) ≤ 1 + jsizeFields l := by
  induction l with
  | nil => simp [setField, jsizeFields, jsize]
  | cons p rest ih =>
    obtain ⟨k', v'⟩ := p
    by_cases h : k' = k <;> simp [setField, h, jsizeFields, jsize] <;> omega

theorem jsizeFields_addUserInfoFields (R : String → IdRecord) (kvs : List (String × Json)) :
    jsizeFields (addUserInfoFields R kvs) ≤ 2 + jsizeFields kvs := by
  unfold addUserInfoFields
  split
  · split
    · rename_i s heq hcond
      have h1 := jsizeFields_setField_str
        (setField kvs "user_display_name" (.str (R s).displayName)) "user_username" (R s).username
      have h2 := jsizeFields_setField_str kvs "user_display_name" (R s).displayName
      omega
    · omega
  · omega

mutual
/-- Embedding of `SlackClient.enrichWithUserInfo` (src/index.ts 323-350), with
the memoized resolver abstracted as the pure function `R`.  Non-objects are
returned unchanged (`!obj || typeof obj !== 'object'`), arrays are mapped
element-wise, and an object first receives the resolved-name fields
(`addUserInfoFields`) and then has the entries of the updated object walked
recursively. -/
def enrichWithUserInfo (R : String → IdRecord) : Json → Json
  | .obj kvs => .obj (enrichFields R (addUserInfoFields R kvs))
  | .arr l => .arr (enrichElems R l)
  | j => j
termination_by j => jsize j
decreasing_by
  all_goals simp [jsize, jsizeElems, jsizeFields]
  · have := jsizeFields_addUserInfoFields R kvs; omega

/-- Element-wise enrichment of an array (`Promise.all(obj.map(...))`, order
preserved). -/
def enrichElems (R : String → IdRecord) : List Json → List Json
  | [] => []
  | x :: xs => enrichWithUserInfo R x :: enrichElems R xs
termination_by l => jsizeElems l
decreasing_by
  all_goals simp [jsize, jsizeElems, jsizeFields]
  all_goals omega

/-- The recursion loop over `Object.entries(enriched)`. -/
def enrichFields (R : String → IdRecord) : List (String × Json) → List (String × Json)
  | [] => []
  | (k, v) :: rest => (k, enrichEntry R v) :: enrichFields R rest
termination_by l => jsizeFields l
decreasing_by
  all_goals simp [jsize, jsizeElems, jsizeFields]
  all_goals omega

/-- Loop body for one entry: values with `typeof value === 'object'` (objects,
arrays and `null`) are enriched recursively, others are left as they are. -/
def enrichEntry (R : String → IdRecord) : Json → Json
  | .obj kvs => .obj (enrichFields R (addUserInfoFields R kvs))
  | .arr l => .arr (enrichElems R l)
  | .null => .null
  | v => v
termination_by v => jsize v
decreasing_by
  all_goals simp [jsize, jsizeElems, jsizeFields]
  · have := jsizeFields_addUserInfoFields R kvs; omega
end

/-- Paths into a JSON tree: a field name step into an object or an index step
into an array. -/
inductive PathElem where
  | field (k : String) : PathElem
  | idx (i : Nat) : PathElem
deriving Repr, DecidableEq

/-- Subtree of `t` at path `p`, `none` when the path does not exist. -/
def getPath : Json → List PathElem → Option Json
  | j, [] => some j
  | .obj kvs, .field k :: p =>
    match getField kvs k with
    | some v => getPath v p
    | none => none
  | .arr l, .idx i :: p =>
    match l[i]? with
    | some v => getPath v p
    | none => none
  | _, _ :: _ => none

/-- Field `k` of the object sitting at path `p` of `t` (`none` when the path
is missing or does not denote an object). -/
def fieldAtPath (t : Json) (p : List PathElem) (k : String) : Option Json :=
  match getPath t p with
  | some (.obj kvs) => getField kvs k
  | _ => none

/-- Containers are the values a non-trivial path can pass through or end at:
objects and arrays.  Every container is truthy in JavaScript. -/
def isContainer : Json → Bool
  | .obj _ => true
  | .arr _ => true
  | _ => false

/-- Cache lookup in the resolver's result cache. -/
def lookupRec : List (String × IdRecord) → String → Option IdRecord
  | [], _ => none
  | (k, r) :: rest, uid => if k = uid then some r else lookupRec rest uid

/-- State of the `pMemoize` wrapper around `memoizedGetUser`
(src/index.ts 276-294): `inflight` is the promise cache keyed by identifier,
`cache` the settled-result cache, and `fetched` the log of upstream
`users.info` calls actually issued. -/
structure ResolverState where
  inflight : List String
  cache : List (String × IdRecord)
  fetched : List String
deriving Repr, DecidableEq

/-- The empty state at process start. -/
def initResolverState : ResolverState := ⟨[], [], []⟩

/-- Observable events of the memoized resolver: a caller arriving with an
identifier, and an in-flight upstream lookup settling. -/
inductive ResolverEvent where
  | request (uid : String) : ResolverEvent
  | settle (uid : String) : ResolverEvent
deriving Repr, DecidableEq

/-- One step of the promise-cache protocol, with `F` the (deterministic)
outcome of the upstream lookup for each identifier.  A `request` for an
identifier that is in flight or already cached attaches to the existing
promise and issues no fetch; otherwise the in-flight entry is recorded
synchronously (as `pMemoize` does before the first await) together with the
fetch.  A `settle` moves an in-flight identifier into the result cache;
settling an identifier that is not in flight is impossible (`none`). -/
def resolverStep (F : String → IdRecord) (s : ResolverState) :
    ResolverEvent → Option ResolverState
  | .request uid =>
    if uid ∈ s.inflight ∨ (lookupRec s.cache uid).isSome then some s
    else some ⟨uid :: s.inflight, s.cache, uid :: s.fetched⟩
  | .settle uid =>
    if uid ∈ s.inflight then
      some ⟨s.inflight.erase uid, (uid, F uid) :: s.cache, s.fetched⟩
    else none

/-- Run of an arbitrary interleaving of resolver events. -/
def runResolver (F : String → IdRecord) (s : ResolverState) :
    List ResolverEvent → Option ResolverState
  | [] => some s
  | e :: es =>
    match resolverStep F s e with
    | some s' => runResolver F s' es
    | none => none

/-- An identifier is known when it is in flight or cached. -/
def knows (s : ResolverState) (uid : String) : Prop :=
  uid ∈ s.inflight ∨ (lookupRec s.cache uid).isSome

instance (s : ResolverState) (uid : String) : Decidable (knows s uid) := by
  unfold knows
  infer_instance

/-- Single-flight invariant: an identifier has been fetched exactly once iff it
is known, and every cache entry holds the outcome of the (unique) upstream
lookup. -/
def resolverInv (F : String → IdRecord) (s : ResolverState) (uid : String) : Prop :=
  (s.fetched.count uid = if knows s uid then 1 else 0) ∧
  (∀ r, (uid, r) ∈ s.cache → r = F uid)

/-- Upstream user record inside a `users.info` response: the three name fields
read by `memoizedGetUser` (each possibly absent or empty). -/
structure SlackUser where
  profile_display_name : Option String
  real_name : Option String
  name : Option String
deriving Repr, DecidableEq

/-- Outcome of one upstream lookup: a JSON response with its `ok` flag and
optional `user` object, or a thrown network/parse error. -/
inductive UpstreamOutcome where
  | response (ok : Bool) (user : Option SlackUser) : UpstreamOutcome
  | failure : UpstreamOutcome
deriving Repr, DecidableEq

/-- JavaScript `a || b` on an optional string (absent and empty are falsy). -/
def jsOrStr (a : Option String) (b : String) : String :=
  match a with
  | some s => if s = "" then b else s
  | none => b

/-- The body of `memoizedGetUser` (src/index.ts 276-294): on `data.ok &&
data.user` the preference chain `display_name || real_name || name || userId`
and `name || userId`; otherwise, and on any thrown error, the degraded record
`{displayName: userId, username: userId}` — the function never rejects. -/
def getUserRecord (uid : String) : UpstreamOutcome → IdRecord
  | .failure => ⟨uid, uid⟩
  | .response ok user? =>
    match user? with
    | some u =>
      if ok then
        ⟨jsOrStr u.profile_display_name (jsOrStr u.real_name (jsOrStr u.name uid)),
         jsOrStr u.name uid⟩
      else ⟨uid, uid⟩
    | none => ⟨uid, uid⟩

/-- One sequential resolution through the memoized resolver: a cache hit
returns the stored record and issues no upstream call; a miss issues exactly
one upstream call and stores whatever record results — including the degraded
record, since the memoized function never rejects and `pMemoize` caches every
resolved value.  Returns (record, new cache, number of upstream calls). -/
def resolveOnce (F : String → UpstreamOutcome) (cache : List (String × IdRecord))
    (uid : String) : IdRecord × List (String × IdRecord) × Nat :=
  match lookupRec cache uid with
  | some r => (r, cache, 0)
  | none =>
    let r := getUserRecord uid (F uid)
    (r, (uid, r) :: cache, 1)

/-- Hexadecimal digit for `\uXXXX` escapes. -/
def hexDigit (n : Nat) : Char :=
  if n < 10 then Char.ofNat (48 + n) else Char.ofNat (87 + n)

/-- `JSON.stringify` escaping of one character. -/
def escapeChar (c : Char) : String :=
  if c = '"' then "\\\""
  else if c = '\\' then "\\\\"
  else if c = '\x08' then "\\b"
  else if c = '\t' then "\\t"
  else if c = '\n' then "\\n"
  else if c = '\x0c' then "\\f"
  else if c = '\r' then "\\r"
  else if c.toNat < 32 then
    "\\u00" ++ String.mk [hexDigit (c.toNat / 16), hexDigit (c.toNat % 16)]
  else String.singleton c

/-- `JSON.stringify` escaping of a string body. -/
def escapeString (s : String) : String :=
  String.join (s.data.map escapeChar)

mutual
/-- `JSON.stringify` of a JSON value. -/
def jsonStringify : Json → String
  | .null => "null"
  | .bool true => "true"
  | .bool false => "false"
  | .num n => toString n
  | .str s => "\"" ++ escapeString s ++ "\""
  | .arr l => "[" ++ stringifyElems l ++ "]"
  | .obj kvs => "\x7b" ++ stringifyFields kvs ++ "\x7d"

/-- Comma-separated serialization of array elements. -/
def stringifyElems : List Json → String
  | [] => ""
  | [x] => jsonStringify x
  | x :: y :: xs => jsonStringify x ++ "," ++ stringifyElems (y :: xs)

/-- Comma-separated serialization of object fields. -/
def stringifyFields : List (String × Json) → String
  | [] => ""
  | [(k, v)] => "\"" ++ escapeString k ++ "\":" ++ jsonStringify v
  | (k, v) :: p :: kvs =>
    "\"" ++ escapeString k ++ "\":" ++ jsonStringify v ++ "," ++ stringifyFields (p :: kvs)
end

/-- The API Gateway: the nine upstream HTTP operations of `SlackClient`, each
returning the parsed JSON payload or a thrown error (`Except.error`).  Request
construction (URL parameters, `Math.min` caps, auth headers) is external
plumbing; each operation receives the raw argument values the handler passes. -/
structure Gateway where
  listChannels : Option Json → Option Json → Except String Json
  postMessage : Json → Json → Except String Json
  postReply : Json → Json → Json → Except String Json
  addReaction : Json → Json → Json → Except String Json
  channelHistory : Json → Option Json → Except String Json
  threadReplies : Json → Json → Except String Json
  listUsers : Option Json → Option Json → Except String Json
  userProfile : Json → Except String Json
  searchMessages : Json → Option Json → Option Json → Option Json → Option Json →
    Option Json → Except String Json

/-- Lifts the normalizer's result into the handler: a `none` (thrown
`RangeError: Invalid time value`) propagates as a thrown error. -/
def ofConverted : Option Json → Except String Json
  | some j => .ok j
  | none => .error "Invalid time value"

/-- Argument extraction after a truthiness check has passed. -/
def getArg (args : List (String × Json)) (k : String) : Json :=
  (getField args k).getD .null

/-- The body of the `CallToolRequest` handler try-block (src/index.ts 552-696):
the missing-`arguments` check, the per-tool required-argument truthiness
checks with their exact error messages, the gateway call, the pipe through the
normalizer, the pipe through the enricher for the three message-reading tools,
and the unknown-tool error. -/
def handleTool (g : Gateway) (R : String → IdRecord) (name : String)
    (args? : Option (List (String × Json))) : Except String Json :=
  match args? with
  | none => .error "No arguments provided"
  | some args =>
    match name with
    | "slack_list_channels" => do
      let data ← g.listChannels (getField args "limit") (getField args "cursor")
      ofConverted (convertTimestampsToISO data)
    | "slack_post_message" =>
      if !truthyOpt (getField args "channel_id") || !truthyOpt (getField args "text") then
        .error "Missing required arguments: channel_id and text"
      else do
        let data ← g.postMessage (getArg args "channel_id") (getArg args "text")
        ofConverted (convertTimestampsToISO data)
    | "slack_reply_to_thread" =>
      if !truthyOpt (getField args "channel_id") || !truthyOpt (getField args "thread_ts") ||
          !truthyOpt (getField args "text") then
        .error "Missing required arguments: channel_id, thread_ts, and text"
      else do
        let data ← g.postReply (getArg args "channel_id") (getArg args "thread_ts")
          (getArg args "text")
        ofConverted (convertTimestampsToISO data)
    | "slack_add_reaction" =>
      if !truthyOpt (getField args "channel_id") || !truthyOpt (getField args "timestamp") ||
          !truthyOpt (getField args "reaction") then
        .error "Missing required arguments: channel_id, timestamp, and reaction"
      else do
        let data ← g.addReaction (getArg args "channel_id") (getArg args "timestamp")
          (getArg args "reaction")
        ofConverted (convertTimestampsToISO data)
    | "slack_get_channel_history" =>
      if !truthyOpt (getField args "channel_id") then
        .error "Missing required argument: channel_id"
      else do
        let data ← g.channelHistory (getArg args "channel_id") (getField args "limit")
        let n ← ofConverted (convertTimestampsToISO data)
        pure (enrichWithUserInfo R n)
    | "slack_get_thread_replies" =>
      if !truthyOpt (getField args "channel_id") || !truthyOpt (getField args "thread_ts") then
        .error "Missing required arguments: channel_id and thread_ts"
      else do
        let data ← g.threadReplies (getArg args "channel_id") (getArg args "thread_ts")
        let n ← ofConverted (convertTimestampsToISO data)
        pure (enrichWithUserInfo R n)
    | "slack_get_users" => do
      let data ← g.listUsers (getField args "limit") (getField args "cursor")
      ofConverted (convertTimestampsToISO data)
    | "slack_get_user_profile" =>
      if !truthyOpt (getField args "user_id") then
        .error "Missing required argument: user_id"
      else do
        let data ← g.userProfile (getArg args "user_id")
        ofConverted (convertTimestampsToISO data)
    | "slack_search_messages" =>
      if !truthyOpt (getField args "query") then
        .error "Missing required argument: query"
      else do
        let data ← g.searchMessages (getArg args "query") (getField args "count")
          (getField args "cursor") (getField args "highlight") (getField args "sort")
          (getField args "sort_dir")
        let n ← ofConverted (convertTimestampsToISO data)
        pure (enrichWithUserInfo R n)
    | other => .error ("Unknown tool: " ++ other)

/-- The serialized error payload produced by the handler's catch block
(src/index.ts 697-709). -/
def errorPayload (e : String) : String :=
  jsonStringify (.obj [("error", .str e)])

/-- The full `CallToolRequest` handler: the try-block with the catch-all that
converts any thrown error into an `{"error": ...}` payload.  The returned
string is the text of the single text content item of the response. -/
def callTool (g : Gateway) (R : String → IdRecord) (name : String)
    (args? : Option (List (String × Json))) : String :=
  match handleTool g R name args? with
  | .ok j => jsonStringify j
  | .error e => errorPayload e

mutual
/-- Specification-side relation, written from the words of the Timestamp
Normalizer contract: the output is structurally identical to the input except
that every object field whose key is recognized and whose value is a numeric
timestamp string is replaced by the ISO-8601 instant at that many seconds
since epoch; all other fields are unchanged (recursively), and
non-object/non-array values pass through unchanged. -/
inductive NormRel : Json → Json → Prop where
  | null : NormRel .null .null
  | bool (b : Bool) : NormRel (.bool b) (.bool b)
  | num (n : Int) : NormRel (.num n) (.num n)
  | str (s : String) : NormRel (.str s) (.str s)
  | arr {l l' : List Json} : NormElems l l' → NormRel (.arr l) (.arr l')
  | obj {kvs kvs' : List (String × Json)} : NormFields kvs kvs' → NormRel (.obj kvs) (.obj kvs')

/-- Array part of `NormRel`: element-wise, order and length preserved. -/
inductive NormElems : List Json → List Json → Prop where
  | nil : NormElems [] []
  | cons {x x' : Json} {xs xs' : List Json} :
      NormRel x x' → NormElems xs xs' → NormElems (x :: xs) (x' :: xs')

/-- Field part of `NormRel`: a recognized timestamp key with a numeric string
value is replaced by its ISO instant; any other field keeps its key and relates
its value recursively (so in particular a timestamp-named field with a
non-numeric value is unchanged). -/
inductive NormFields : List (String × Json) → List (String × Json) → Prop where
  | nil : NormFields [] []
  | consTs {k s s' : String} {rest rest' : List (String × Json)} :
      isTsKey k = true → isNumericTs s = true → isoOfTsString s = some s' →
      NormFields rest rest' → NormFields ((k, .str s) :: rest) ((k, .str s') :: rest')
  | consOther {k : String} {v v' : Json} {rest rest' : List (String × Json)} :
      (∀ s, v = Json.str s → (isTsKey k && isNumericTs s) = false) →
      NormRel v v' → NormFields rest rest' →
      NormFields ((k, v) :: rest) ((k, v') :: rest')
end

/-- Identity resolver used in concrete examples: every lookup succeeds with
the degraded-looking record `⟨uid, uid⟩`. -/
def R0 : String → IdRecord := fun uid => ⟨uid, uid⟩

/-- Upstream oracle on which every lookup fails. -/
def failUpstream : String → UpstreamOutcome := fun _ => .failure

/-- Upstream oracle on which every lookup succeeds with full name data. -/
def okUpstream : String → UpstreamOutcome := fun _ =>
  .response true (some ⟨some "Alice", some "Alice Liddell", some "alice"⟩)

/-- A raw message payload with an unresolved user identifier and no
resolved-name fields. -/
def rawMsg : Json := .obj [("user", .str "U1")]

/-- Concrete gateway whose every operation succeeds with `rawMsg`. -/
def g0 : Gateway where
  listChannels := fun _ _ => .ok rawMsg
  postMessage := fun _ _ => .ok rawMsg
  postReply := fun _ _ _ => .ok rawMsg
  addReaction := fun _ _ _ => .ok rawMsg
  channelHistory := fun _ _ => .ok rawMsg
  threadReplies := fun _ _ => .ok rawMsg
  listUsers := fun _ _ => .ok rawMsg
  userProfile := fun _ => .ok rawMsg
  searchMessages := fun _ _ _ _ _ _ => .ok rawMsg

/-- Input tree whose nested object sits under a `user_username` key of an
enrichable parent. -/
def t4ex : Json := .obj [("user", .str "U1"), ("user_username", .obj [("user", .str "U2")])]

/-- Sanity check: a fractional Slack timestamp is rendered at millisecond
precision. -/
theorem convertTimestampsToISO_sample :
    convertTimestampsToISO (.obj [("ts", .str "1700000000.123456")]) =
      some (.obj [("ts", .str "2023-11-14T22:13:20.123Z")]) := rfl

/-- Sanity check: the serializer matches `JSON.stringify` on a simple object. -/
theorem jsonStringify_sample :
    jsonStringify (.obj [("error", .str "boom")]) = "\x7b\"error\":\"boom\"\x7d" := rfl

/-! ### Helper lemmas about the normalizer -/

theorem isNumericTs_chars {s : String} (h : isNumericTs s = true) :
    ∀ c ∈ s.data, c.isDigit = true ∨ c = '.' := by
  intro c hc
  unfold isNumericTs at h
  simp only [Bool.and_eq_true, decide_eq_true_eq] at h
  obtain ⟨h1, h2⟩ := h
  rw [← List.takeWhile_append_dropWhile Char.isDigit s.data] at hc
  rcases List.mem_append.mp hc with hm | hm
  · exact Or.inl (List.mem_takeWhile_imp hm)
  · split at h2
    · rename_i hd
      rw [hd] at hm
      simp at hm
    · rename_i fs hd
      rw [hd] at hm
      rcases List.mem_cons.mp hm with rfl | hm'
      · exact Or.inr rfl
      · simp only [Bool.and_eq_true, List.all_eq_true, decide_eq_true_eq] at h2
        exact Or.inl (h2.2 _ hm')
    · simp at h2

theorem isoOfMs_not_numeric (ms : Nat) : isNumericTs (isoOfMs ms) = false := by
  by_contra hne
  have h : isNumericTs (isoOfMs ms) = true := by
    cases hh : isNumericTs (isoOfMs ms)
    · exact absurd hh hne
    · rfl
  obtain ⟨t, ht⟩ : ∃ t, isoOfMs ms = t ++ "Z" := ⟨_, rfl⟩
  have hz : 'Z' ∈ (isoOfMs ms).data := by
    rw [ht, String.data_append]
    exact List.mem_append_right _ (by simp)
  rcases isNumericTs_chars h 'Z' hz with hd | hd
  · simp at hd
  · simp at hd

theorem isoOfTsString_not_numeric {s s' : String} (h : isoOfTsString s = some s') :
    isNumericTs s' = false := by
  unfold isoOfTsString at h
  split at h
  · rw [← Option.some.inj h]
    exact isoOfMs_not_numeric _
  · cases h

mutual
theorem convert_idem (t t' : Json) (h : convertTimestampsToISO t = some t') :
    convertTimestampsToISO t' = some t' := by
  cases t with
  | null => cases h; rfl
  | bool b => cases h; rfl
  | num n => cases h; rfl
  | str s => cases h; rfl
  | arr l =>
    simp only [convertTimestampsToISO, Option.map_eq_some'] at h
    obtain ⟨l', hl, rfl⟩ := h
    simp only [convertTimestampsToISO, Option.map_eq_some']
    exact ⟨l', convertElems_idem l l' hl, rfl⟩
  | obj kvs =>
    simp only [convertTimestampsToISO, Option.map_eq_some'] at h
    obtain ⟨kvs', hk, rfl⟩ := h
    simp only [convertTimestampsToISO, Option.map_eq_some']
    exact ⟨kvs', convertFields_idem kvs kvs' hk, rfl⟩

theorem convertElems_idem (l l' : List Json) (h : convertElems l = some l') :
    convertElems l' = some l' := by
  cases l with
  | nil => cases h; rfl
  | cons x xs =>
    simp only [convertElems] at h
    cases hx : convertTimestampsToISO x with
    | none => rw [hx] at h; cases h
    | some x' =>
      rw [hx] at h
      cases hxs : convertElems xs with
      | none => rw [hxs] at h; cases h
      | some xs' =>
        rw [hxs] at h
        cases h
        simp only [convertElems, convert_idem x x' hx, convertElems_idem xs xs' hxs]

theorem convertFields_idem (kvs kvs' : List (String × Json))
    (h : convertFields kvs = some kvs') : convertFields kvs' = some kvs' := by
  cases kvs with
  | nil => cases h; rfl
  | cons p rest =>
    obtain ⟨k, v⟩ := p
    simp only [convertFields] at h
    cases he : convertEntry k v with
    | none => rw [he] at h; cases h
    | some w =>
      rw [he] at h
      cases hrest : convertFields rest with
      | none => rw [hrest] at h; cases h
      | some rest' =>
        rw [hrest] at h
        cases h
        have hrest2 := convertFields_idem rest rest' hrest
        have hw : convertEntry k w = some w := convertEntry_idem k v w he
        simp only [convertFields, hw, hrest2]

theorem convertEntry_idem (k : String) (v w : Json) (h : convertEntry k v = some w) :
    convertEntry k w = some w := by
  cases v with
  | str s =>
    by_cases hts : (isTsKey k && isNumericTs s) = true
    · simp only [convertEntry, hts, if_pos] at h
      cases hiso : isoOfTsString s with
      | none => rw [hiso] at h; cases h
      | some s2 =>
        rw [hiso] at h
        simp only [Option.map_some'] at h
        cases h
        have hns : (isTsKey k && isNumericTs s2) = false := by
          rw [isoOfTsString_not_numeric hiso, Bool.and_false]
        simp [convertEntry, hns]
    · have hts' : (isTsKey k && isNumericTs s) = false := by
        revert hts; cases (isTsKey k && isNumericTs s) <;> simp
      simp only [convertEntry, hts', Bool.false_eq_true, if_false] at h
      cases h
      simp [convertEntry, hts']
  | null => cases h; rfl
  | bool b => cases h; rfl
  | num n => cases h; rfl
  | arr l =>
    simp only [convertEntry, Option.map_eq_some'] at h
    obtain ⟨l2, hl, rfl⟩ := h
    simp only [convertEntry, Option.map_eq_some']
    exact ⟨l2, convertElems_idem l l2 hl, rfl⟩
  | obj kvs2 =>
    simp only [convertEntry, Option.map_eq_some'] at h
    obtain ⟨kvs3, hk, rfl⟩ := h
    simp only [convertEntry, Option.map_eq_some']
    exact ⟨kvs3, convertFields_idem kvs2 kvs3 hk, rfl⟩
end

mutual
theorem convert_normRel (t t' : Json) (h : convertTimestampsToISO t = some t') :
    NormRel t t' := by
  cases t with
  | null => cases h; exact .null
  | bool b => cases h; exact .bool b
  | num n => cases h; exact .num n
  | str s => cases h; exact .str s
  | arr l =>
    simp only [convertTimestampsToISO, Option.map_eq_some'] at h
    obtain ⟨l', hl, rfl⟩ := h
    exact .arr (convertElems_normElems l l' hl)
  | obj kvs =>
    simp only [convertTimestampsToISO, Option.map_eq_some'] at h
    obtain ⟨kvs', hk, rfl⟩ := h
    exact .obj (convertFields_normFields kvs kvs' hk)

theorem convertElems_normElems (l l' : List Json) (h : convertElems l = some l') :
    NormElems l l' := by
  cases l with
  | nil => cases h; exact .nil
  | cons x xs =>
    simp only [convertElems] at h
    cases hx : convertTimestampsToISO x with
    | none => rw [hx] at h; cases h
    | some x' =>
      rw [hx] at h
      cases hxs : convertElems xs with
      | none => rw [hxs] at h; cases h
      | some xs' =>
        rw [hxs] at h
        cases h
        exact .cons (convert_normRel x x' hx) (convertElems_normElems xs xs' hxs)

theorem convertFields_normFields (kvs kvs' : List (String × Json))
    (h : convertFields kvs = some kvs') : NormFields kvs kvs' := by
  cases kvs with
  | nil => cases h; exact .nil
  | cons p rest =>
    obtain ⟨k, v⟩ := p
    simp only [convertFields] at h
    cases he : convertEntry k v with
    | none => rw [he] at h; cases h
    | some w =>
      rw [he] at h
      cases hrest : convertFields rest with
      | none => rw [hrest] at h; cases h
      | some rest' =>
        rw [hrest] at h
        cases h
        have hr := convertFields_normFields rest rest' hrest
        cases v with
        | str s =>
          by_cases hts : (isTsKey k && isNumericTs s) = true
          · simp only [convertEntry, hts, if_pos] at he
            cases hiso : isoOfTsString s with
            | none => rw [hiso] at he; cases he
            | some s2 =>
              rw [hiso] at he
              simp only [Option.map_some'] at he
              cases he
              simp only [Bool.and_eq_true] at hts
              exact .consTs hts.1 hts.2 hiso hr
          · have hts' : (isTsKey k && isNumericTs s) = false := by
              revert hts; cases (isTsKey k && isNumericTs s) <;> simp
            simp only [convertEntry, hts', Bool.false_eq_true, if_false] at he
            cases he
            refine .consOther ?_ (.str s) hr
            intro s0 heq
            cases heq
            exact hts'
        | null =>
          cases he
          exact .consOther (fun s0 heq => by cases heq) .null hr
        | bool b =>
          cases he
          exact .consOther (fun s0 heq => by cases heq) (.bool b) hr
        | num n =>
          cases he
          exact .consOther (fun s0 heq => by cases heq) (.num n) hr
        | arr l =>
          simp only [convertEntry, Option.map_eq_some'] at he
          obtain ⟨l2, hl, rfl⟩ := he
          exact .consOther (fun s0 heq => by cases heq)
            (.arr (convertElems_normElems l l2 hl)) hr
        | obj kvs2 =>
          simp only [convertEntry, Option.map_eq_some'] at he
          obtain ⟨kvs3, hk, rfl⟩ := he
          exact .consOther (fun s0 heq => by cases heq)
            (.obj (convertFields_normFields kvs2 kvs3 hk)) hr
end

/-! ### Helper lemmas about the enricher -/

theorem enrichEntry_eq (R : String → IdRecord) (v : Json) :
    enrichEntry R v = enrichWithUserInfo R v := by
  cases v <;> simp [enrichEntry, enrichWithUserInfo]

theorem enrich_str (R : String → IdRecord) (s : String) :
    enrichWithUserInfo R (.str s) = .str s := by
  simp [enrichWithUserInfo]

theorem getField_enrichFields (R : String → IdRecord) (l : List (String × Json)) (k : String) :
    getField (enrichFields R l) k = Option.map (enrichWithUserInfo R) (getField l k) := by
  induction l with
  | nil => simp [enrichFields, getField]
  | cons p rest ih =>
    obtain ⟨k', v⟩ := p
    by_cases h : k' = k <;> simp [enrichFields, getField, h, ih, enrichEntry_eq]

theorem getField_setField_self (l : List (String × Json)) (k : String) (v : Json) :
    getField (setField l k v) k = some v := by
  induction l with
  | nil => simp [setField, getField]
  | cons p rest ih =>
    obtain ⟨k', v'⟩ := p
    by_cases h : k' = k <;> simp [setField, getField, h, ih]

theorem getField_setField_ne (l : List (String × Json)) (k k' : String) (v : Json)
    (h : k' ≠ k) : getField (setField l k' v) k = getField l k := by
  have h' : ¬k = k' := fun hh => h hh.symm
  induction l with
  | nil => simp [setField, getField, h]
  | cons p rest ih =>
    obtain ⟨k0, v0⟩ := p
    by_cases h0 : k0 = k'
    · subst h0
      simp [setField, getField, h]
    · by_cases h1 : k0 = k
      · subst h1
        simp [setField, getField, h0, h']
      · simp [setField, getField, h0, h1, ih]

theorem isSome_getField_setField (l : List (String × Json)) (k k' : String) (v : Json)
    (h : (getField l k).isSome) : (getField (setField l k' v) k).isSome := by
  by_cases hk : k' = k
  · subst hk
    rw [getField_setField_self]
    rfl
  · rw [getField_setField_ne l k k' v hk]
    exact h

theorem getField_addUserInfoFields_ne (R : String → IdRecord) (kvs : List (String × Json))
    (k : String) (h1 : k ≠ "user_display_name") (h2 : k ≠ "user_username") :
    getField (addUserInfoFields R kvs) k = getField kvs k := by
  unfold addUserInfoFields
  split
  · split
    · rename_i s heq hcond
      rw [getField_setField_ne _ _ _ _ (Ne.symm h2), getField_setField_ne _ _ _ _ (Ne.symm h1)]
    · rfl
  · rfl

theorem isSome_getField_addUserInfoFields (R : String → IdRecord) (kvs : List (String × Json))
    (k : String) (h : (getField kvs k).isSome) :
    (getField (addUserInfoFields R kvs) k).isSome := by
  unfold addUserInfoFields
  split
  · split
    · exact isSome_getField_setField _ _ _ _ (isSome_getField_setField _ _ _ _ h)
    · exact h
  · exact h

theorem enrichElems_getElem? (R : String → IdRecord) (l : List Json) (i : Nat) :
    (enrichElems R l)[i]? = l[i]?.map (enrichWithUserInfo R) := by
  induction l generalizing i with
  | nil => simp [enrichElems]
  | cons x xs ih =>
    cases i with
    | zero => simp [enrichElems]
    | succ n => simp [enrichElems, ih]

theorem enrichElems_length (R : String → IdRecord) (l : List Json) :
    (enrichElems R l).length = l.length := by
  induction l with
  | nil => simp [enrichElems]
  | cons x xs ih => simp [enrichElems, ih]

theorem getPath_cons_container (v0 : Json) (e : PathElem) (p : List PathElem) (v : Json)
    (h : getPath v0 (e :: p) = some v) : isContainer v0 = true := by
  cases v0 with
  | obj kvs => rfl
  | arr l => rfl
  | null => cases e <;> simp [getPath] at h
  | bool b => cases e <;> simp [getPath] at h
  | num n => cases e <;> simp [getPath] at h
  | str s => cases e <;> simp [getPath] at h

theorem jsTruthy_of_container (v : Json) (h : isContainer v = true) : jsTruthy v = true := by
  cases v <;> simp [isContainer, jsTruthy] at h ⊢

theorem addUserInfoFields_truthy_dn (R : String → IdRecord) (kvs : List (String × Json))
    (h : truthyOpt (getField kvs "user_display_name") = true) :
    addUserInfoFields R kvs = kvs := by
  unfold addUserInfoFields
  split
  · rw [h]
    simp
  · rfl

theorem getPath_enrich (R : String → IdRecord) (p : List PathElem) :
    (∀ k, PathElem.field k ∈ p → k ≠ "user_username") →
    ∀ t v, getPath t p = some v → isContainer v = true →
      getPath (enrichWithUserInfo R t) p = some (enrichWithUserInfo R v) := by
  induction p with
  | nil =>
    intro hp t v hget hv
    simp only [getPath] at hget
    cases hget
    simp [getPath]
  | cons e p' ih =>
    intro hp t v hget hv
    cases e with
    | field k =>
      cases t with
      | obj kvs =>
        simp only [getPath] at hget
        cases hv0 : getField kvs k with
        | none => rw [hv0] at hget; cases hget
        | some v0 =>
          rw [hv0] at hget
          have hkuu : k ≠ "user_username" := hp k (List.mem_cons_self _ _)
          have hpres : getField (addUserInfoFields R kvs) k = some v0 := by
            by_cases hkud : k = "user_display_name"
            · subst hkud
              have hcont : isContainer v0 = true := by
                cases p' with
                | nil =>
                  simp only [getPath] at hget
                  cases hget
                  exact hv
                | cons e2 p2 => exact getPath_cons_container v0 e2 p2 v hget
              have htr : truthyOpt (getField kvs "user_display_name") = true := by
                rw [hv0]
                exact jsTruthy_of_container v0 hcont
              rw [addUserInfoFields_truthy_dn R kvs htr]
              exact hv0
            · rw [getField_addUserInfoFields_ne R kvs k hkud hkuu]
              exact hv0
          have hstep : getField (enrichFields R (addUserInfoFields R kvs)) k =
              some (enrichWithUserInfo R v0) := by
            rw [getField_enrichFields, hpres]
            rfl
          have henr : enrichWithUserInfo R (.obj kvs) =
              .obj (enrichFields R (addUserInfoFields R kvs)) := by
            simp [enrichWithUserInfo]
          rw [henr]
          simp only [getPath, hstep]
          exact ih (fun k' hk' => hp k' (List.mem_cons_of_mem _ hk')) v0 v hget hv
      | null => simp [getPath] at hget
      | bool b => simp [getPath] at hget
      | num n => simp [getPath] at hget
      | str s => simp [getPath] at hget
      | arr l => simp [getPath] at hget
    | idx i =>
      cases t with
      | arr l =>
        simp only [getPath] at hget
        cases hv0 : l[i]? with
        | none => rw [hv0] at hget; cases hget
        | some v0 =>
          rw [hv0] at hget
          have hstep : (enrichElems R l)[i]? = some (enrichWithUserInfo R v0) := by
            rw [enrichElems_getElem?, hv0]
            rfl
          have henr : enrichWithUserInfo R (.arr l) = .arr (enrichElems R l) := by
            simp [enrichWithUserInfo]
          rw [henr]
          simp only [getPath, hstep]
          exact ih (fun k' hk' => hp k' (List.mem_cons_of_mem _ hk')) v0 v hget hv
      | null => simp [getPath] at hget
      | bool b => simp [getPath] at hget
      | num n => simp [getPath] at hget
      | str s => simp [getPath] at hget
      | obj kvs => simp [getPath] at hget

theorem isUserId_ne_empty {s : String} (h : isUserId s = true) : s ≠ "" := by
  intro heq
  subst heq
  rw [show isUserId "" = false from rfl] at h
  cases h

theorem addUserInfoFields_fires (R : String → IdRecord) (kvs : List (String × Json)) (u : String)
    (hu : getField kvs "user" = some (.str u)) (hpat : isUserId u = true)
    (hdn : truthyOpt (getField kvs "user_display_name") = false) :
    addUserInfoFields R kvs =
      setField (setField kvs "user_display_name" (.str (R u).displayName))
        "user_username" (.str (R u).username) := by
  unfold addUserInfoFields
  rw [hu]
  simp [hdn, hpat, isUserId_ne_empty hpat]

/-! ### Helper lemmas about the resolver state machine -/

theorem lookupRec_cons_ne (u uid : String) (r : IdRecord) (rest : List (String × IdRecord))
    (h : u ≠ uid) : lookupRec ((u, r) :: rest) uid = lookupRec rest uid := by
  simp [lookupRec, h]

theorem resolverStep_inv (F : String → IdRecord) (s s' : ResolverState) (e : ResolverEvent)
    (uid : String) (hstep : resolverStep F s e = some s') (hinv : resolverInv F s uid) :
    resolverInv F s' uid := by
  obtain ⟨hc, hcache⟩ := hinv
  cases e with
  | request u =>
    simp only [resolverStep] at hstep
    split at hstep
    · cases hstep
      exact ⟨hc, hcache⟩
    · rename_i hmiss
      push_neg at hmiss
      cases hstep
      refine ⟨?_, hcache⟩
      by_cases hu : u = uid
      · subst hu
        have hkold : ¬knows s u := by
          intro hk
          cases hk with
          | inl h => exact hmiss.1 h
          | inr h => exact hmiss.2 h
        have hknew : knows ⟨u :: s.inflight, s.cache, u :: s.fetched⟩ u :=
          Or.inl (List.mem_cons_self _ _)
        simp only [List.count_cons, if_pos hknew]
        rw [if_neg hkold] at hc
        simp [hc]
      · have hknew : knows ⟨u :: s.inflight, s.cache, u :: s.fetched⟩ uid ↔ knows s uid := by
          unfold knows
          simp only [List.mem_cons]
          constructor
          · rintro (h | h)
            · rcases h with h | h
              · exact absurd h.symm hu
              · exact Or.inl h
            · exact Or.inr h
          · rintro (h | h)
            · exact Or.inl (Or.inr h)
            · exact Or.inr h
        simp only [List.count_cons]
        rw [if_congr hknew rfl rfl]
        rw [hc]
        simp [hu]
  | settle u =>
    simp only [resolverStep] at hstep
    split at hstep
    · rename_i hin
      cases hstep
      constructor
      · by_cases hu : u = uid
        · subst hu
          have hkold : knows s u := Or.inl hin
          have hknew : knows ⟨s.inflight.erase u, (u, F u) :: s.cache, s.fetched⟩ u := by
            right
            simp [lookupRec]
          simp only [if_pos hknew]
          rw [if_pos hkold] at hc
          exact hc
        · have hknew : knows ⟨s.inflight.erase u, (u, F u) :: s.cache, s.fetched⟩ uid ↔
              knows s uid := by
            unfold knows
            rw [lookupRec_cons_ne u uid _ _ hu]
            have : uid ∈ s.inflight.erase u ↔ uid ∈ s.inflight :=
              List.mem_erase_of_ne (fun hh => hu hh.symm)
            rw [this]
          rw [if_congr hknew rfl rfl]
          exact hc
      · intro r hr
        rcases List.mem_cons.mp hr with h | h
        · cases h
          rfl
        · exact hcache r h
    · cases hstep

theorem runResolver_inv (F : String → IdRecord) (es : List ResolverEvent)
    (s s' : ResolverState) (uid : String) (hrun : runResolver F s es = some s')
    (hinv : resolverInv F s uid) : resolverInv F s' uid := by
  induction es generalizing s with
  | nil =>
    simp only [runResolver] at hrun
    cases hrun
    exact hinv
  | cons e es ih =>
    simp only [runResolver] at hrun
    cases hs : resolverStep F s e with
    | none => rw [hs] at hrun; cases hrun
    | some s1 =>
      rw [hs] at hrun
      exact ih s1 hrun (resolverStep_inv F s s1 e uid hs hinv)

theorem resolverStep_knows_mono (F : String → IdRecord) (s s' : ResolverState)
    (e : ResolverEvent) (uid : String) (hstep : resolverStep F s e = some s')
    (hk : knows s uid) : knows s' uid := by
  cases e with
  | request u =>
    simp only [resolverStep] at hstep
    split at hstep
    · cases hstep; exact hk
    · cases hstep
      cases hk with
      | inl h => exact Or.inl (List.mem_cons_of_mem _ h)
      | inr h => exact Or.inr h
  | settle u =>
    simp only [resolverStep] at hstep
    split at hstep
    · rename_i hin
      cases hstep
      by_cases hu : u = uid
      · subst hu
        right
        simp [lookupRec]
      · cases hk with
        | inl h =>
          exact Or.inl ((List.mem_erase_of_ne (fun hh => hu hh.symm)).mpr h)
        | inr h =>
          right
          rw [lookupRec_cons_ne u uid _ _ hu]
          exact h
    · cases hstep

theorem runResolver_knows_mono (F : String → IdRecord) (es : List ResolverEvent)
    (s s' : ResolverState) (uid : String) (hrun : runResolver F s es = some s')
    (hk : knows s uid) : knows s' uid := by
  induction es generalizing s with
  | nil => simp only [runResolver] at hrun; cases hrun; exact hk
  | cons e es ih =>
    simp only [runResolver] at hrun
    cases hs : resolverStep F s e with
    | none => rw [hs] at hrun; cases hrun
    | some s1 =>
      rw [hs] at hrun
      exact ih s1 hrun (resolverStep_knows_mono F s s1 e uid hs hk)

theorem runResolver_request_knows (F : String → IdRecord) (es : List ResolverEvent)
    (s s' : ResolverState) (uid : String) (hrun : runResolver F s es = some s')
    (hreq : ResolverEvent.request uid ∈ es) : knows s' uid := by
  induction es generalizing s with
  | nil => cases hreq
  | cons e es ih =>
    simp only [runResolver] at hrun
    cases hs : resolverStep F s e with
    | none => rw [hs] at hrun; cases hrun
    | some s1 =>
      rw [hs] at hrun
      rcases List.mem_cons.mp hreq with rfl | hmem
      · have hk1 : knows s1 uid := by
          simp only [resolverStep] at hs
          split at hs
          · cases hs; assumption
          · cases hs; exact Or.inl (List.mem_cons_self _ _)
        exact runResolver_knows_mono F es s1 s' uid hrun hk1
      · exact ih s1 hrun hmem

/-! ### Claim theorems -/

/-- Claim C1 (confirmed): for every identifier, over every interleaving of
resolver events starting from the empty cache, at most one upstream lookup is
issued per identifier — and exactly one once any caller has requested it — and
every cached record for the identifier is the outcome `F uid` of that single
in-flight call, so every later or concurrent caller observes that outcome. -/
theorem C1_memoizedGetUser_single_flight (F : String → IdRecord) (es : List ResolverEvent)
    (s' : ResolverState) (hrun : runResolver F initResolverState es = some s') (uid : String) :
    s'.fetched.count uid ≤ 1 ∧
    (ResolverEvent.request uid ∈ es → s'.fetched.count uid = 1) ∧
    (∀ r, (uid, r) ∈ s'.cache → r = F uid) := by
  have hnk : ¬knows initResolverState uid := by
    intro h
    cases h with
    | inl h => cases h
    | inr h => simp [initResolverState, lookupRec] at h
  have hinv0 : resolverInv F initResolverState uid := by
    constructor
    · rw [if_neg hnk]
      rfl
    · intro r hr
      cases hr
  obtain ⟨hc, hcache⟩ := runResolver_inv F es initResolverState s' uid hrun hinv0
  refine ⟨?_, ?_, hcache⟩
  · rw [hc]
    split <;> omega
  · intro hreq
    have hk := runResolver_request_knows F es initResolverState s' uid hrun hreq
    rw [hc, if_pos hk]

/-- Witness for C1: two concurrent requests for `"U123"` with no cache entry
followed by the settle of the single in-flight lookup — exactly one fetch is
logged and the cached record is the lookup's outcome. -/
theorem C1_memoizedGetUser_single_flight_witness :
    (["U123"] : List String).count "U123" = 1 ∧
    IdRecord.mk "U123" "U123" = R0 "U123" := by
  have h := C1_memoizedGetUser_single_flight R0
    [ResolverEvent.request "U123", ResolverEvent.request "U123", ResolverEvent.settle "U123"]
    ⟨[], [("U123", ⟨"U123", "U123"⟩)], ["U123"]⟩ (by decide) "U123"
  exact ⟨h.2.1 (by decide), h.2.2 ⟨"U123", "U123"⟩ (by decide)⟩

/-- Claim C2 (confirmed): timestamp normalization is idempotent — composing
`convertTimestampsToISO` with itself (through `Option.bind`, since the
conversion can throw) equals a single application, and in particular every
ISO-rendered instant fails the numeric-string predicate, so an
already-converted field is never re-converted. -/
theorem C2_convertTimestampsToISO_idempotent :
    (∀ t, (convertTimestampsToISO t).bind convertTimestampsToISO =
      convertTimestampsToISO t) ∧
    (∀ ms, isNumericTs (isoOfMs ms) = false) := by
  constructor
  · intro t
    cases h : convertTimestampsToISO t with
    | none => rfl
    | some t' => simpa using convert_idem t t' h
  · exact isoOfMs_not_numeric

/-- Counterexample to claim C3 as stated: after the upstream lookup for
`"U123"` fails, the degraded record is stored in the memoization cache, so a
second resolution — even against an upstream that would now succeed — issues 0
upstream lookups and returns the stale degraded record, contradicting "a
subsequent resolution request for the same identifier issues a fresh upstream
lookup". -/
theorem C3_failure_cached_counterexample :
    resolveOnce failUpstream [] "U123" =
      (⟨"U123", "U123"⟩, [("U123", ⟨"U123", "U123"⟩)], 1) ∧
    resolveOnce okUpstream [("U123", ⟨"U123", "U123"⟩)] "U123" =
      (⟨"U123", "U123"⟩, [("U123", ⟨"U123", "U123"⟩)], 0) :=
  ⟨rfl, rfl⟩

/-- Claim C3 (corrected): when the upstream lookup fails (thrown error,
`ok: false`, or missing user object) the resolver does not raise and returns
the degraded record `⟨uid, uid⟩`; however the degraded record IS cached like
any resolved value (the memoized function never rejects, and `p-memoize`
caches every resolved promise), so a subsequent resolution returns it from the
cache and issues no fresh upstream lookup. -/
theorem C3_resolver_degrades_but_caches_failures (F : String → UpstreamOutcome)
    (cache : List (String × IdRecord)) (uid : String)
    (hmiss : lookupRec cache uid = none) (hfail : F uid = .failure) :
    resolveOnce F cache uid = (⟨uid, uid⟩, (uid, ⟨uid, uid⟩) :: cache, 1) ∧
    (∀ F' : String → UpstreamOutcome,
      resolveOnce F' ((uid, ⟨uid, uid⟩) :: cache) uid =
        (⟨uid, uid⟩, (uid, ⟨uid, uid⟩) :: cache, 0)) ∧
    (∀ u?, getUserRecord uid (.response false u?) = ⟨uid, uid⟩) ∧
    getUserRecord uid (.response true none) = ⟨uid, uid⟩ := by
  refine ⟨?_, ?_, ?_, rfl⟩
  · simp [resolveOnce, hmiss, hfail, getUserRecord]
  · intro F'
    simp [resolveOnce, lookupRec]
  · intro u?
    cases u? <;> simp [getUserRecord]

/-- Witness for C3 (amended): a concrete failed resolution of `"U999"`, its
cache hit on retry, and the not-ok degradation. -/
theorem C3_resolver_degrades_but_caches_failures_witness :
    resolveOnce failUpstream [] "U999" =
      (⟨"U999", "U999"⟩, [("U999", ⟨"U999", "U999"⟩)], 1) ∧
    resolveOnce okUpstream [("U999", ⟨"U999", "U999"⟩)] "U999" =
      (⟨"U999", "U999"⟩, [("U999", ⟨"U999", "U999"⟩)], 0) ∧
    getUserRecord "U999" (.response false none) = ⟨"U999", "U999"⟩ := by
  have h := C3_resolver_degrades_but_caches_failures failUpstream [] "U999" rfl rfl
  exact ⟨h.1, h.2.1 okUpstream, h.2.2.1 none⟩

/-- Counterexample to claim C4 as stated: in
`{user: "U1", user_username: {user: "U2"}}` the inner object has a matching
`user` field and carries neither resolved-name field, yet after enrichment the
position it occupied holds the string `"U1"` — the enrichment of the parent
overwrote the `user_username` field, destroying the nested object instead of
adding resolved fields to it. -/
theorem C4_nested_object_destroyed_counterexample :
    getPath t4ex [PathElem.field "user_username"] = some (.obj [("user", .str "U2")]) ∧
    isUserId "U2" = true ∧
    getField [("user", Json.str "U2")] "user_display_name" = none ∧
    getField [("user", Json.str "U2")] "user_username" = none ∧
    getPath (enrichWithUserInfo R0 t4ex) [PathElem.field "user_username"] =
      some (.str "U1") := by
  refine ⟨rfl, rfl, rfl, rfl, ?_⟩
  have he : enrichWithUserInfo R0 t4ex =
      .obj [("user", .str "U1"), ("user_username", .str "U1"),
            ("user_display_name", .str "U1")] := by
    simp [t4ex, enrichWithUserInfo, enrichFields, enrichEntry, addUserInfoFields, getField,
      setField, isUserId, truthyOpt, jsTruthy, R0]
  rw [he]
  rfl

/-- Claim C4 (corrected): every object in the tree — at any nesting depth —
that has a string `user` field matching `^U[A-Z0-9]+$` and carries neither
resolved-name field ends up with `user_display_name` and `user_username`
siblings holding the Identity Resolver's record for that identifier (and the
raw `user` field intact), provided the object is reached by a path that does
not pass through a `user_username` field: an enrichment firing at an ancestor
overwrites `user_username` with a string, destroying any object stored there,
as the counterexample shows.  Paths through `user_display_name` fields need no
exclusion: a parent can only fire when its `user_display_name` is falsy, and a
falsy value is never an object or array, so an object under that field is
always enriched normally. -/
theorem C4_enrich_adds_resolved_fields (R : String → IdRecord) (t : Json) (p : List PathElem)
    (kvs : List (String × Json)) (u : String)
    (hpath : getPath t p = some (.obj kvs))
    (hp : ∀ k, PathElem.field k ∈ p → k ≠ "user_username")
    (hu : getField kvs "user" = some (.str u))
    (hpat : isUserId u = true)
    (hdn : getField kvs "user_display_name" = none)
    (hun : getField kvs "user_username" = none) :
    fieldAtPath (enrichWithUserInfo R t) p "user" = some (.str u) ∧
    fieldAtPath (enrichWithUserInfo R t) p "user_display_name" =
      some (.str (R u).displayName) ∧
    fieldAtPath (enrichWithUserInfo R t) p "user_username" = some (.str (R u).username) := by
  have hg := getPath_enrich R p hp t (.obj kvs) hpath rfl
  have henr : enrichWithUserInfo R (.obj kvs) =
      .obj (enrichFields R (addUserInfoFields R kvs)) := by
    simp [enrichWithUserInfo]
  have hadd := addUserInfoFields_fires R kvs u hu hpat (by rw [hdn]; rfl)
  have hfa : ∀ k, fieldAtPath (enrichWithUserInfo R t) p k =
      getField (enrichFields R (addUserInfoFields R kvs)) k := by
    intro k
    unfold fieldAtPath
    rw [hg, henr]
  refine ⟨?_, ?_, ?_⟩
  · rw [hfa, getField_enrichFields,
      getField_addUserInfoFields_ne R kvs "user" (by decide) (by decide), hu,
      Option.map_some', enrich_str]
  · rw [hfa, getField_enrichFields, hadd,
      getField_setField_ne _ _ _ _ (by decide),
      getField_setField_self, Option.map_some', enrich_str]
  · rw [hfa, getField_enrichFields, hadd, getField_setField_self, Option.map_some', enrich_str]

/-- Witness for C4 (amended) at the root object `{user: "U7"}`: all three
fields are present after enrichment with the resolver's values. -/
theorem C4_enrich_adds_resolved_fields_witness :
    fieldAtPath (enrichWithUserInfo R0 (.obj [("user", .str "U7")])) [] "user" =
      some (.str "U7") ∧
    fieldAtPath (enrichWithUserInfo R0 (.obj [("user", .str "U7")])) [] "user_display_name" =
      some (.str "U7") ∧
    fieldAtPath (enrichWithUserInfo R0 (.obj [("user", .str "U7")])) [] "user_username" =
      some (.str "U7") := by
  have h := C4_enrich_adds_resolved_fields R0 (.obj [("user", .str "U7")]) []
    [("user", Json.str "U7")] "U7" rfl (by simp) rfl rfl rfl rfl
  exact h

/-- Counterexample to claim C5 as stated: on
`{user: "U123", user_username: "bob"}` (no `user_display_name`) enrichment
fires and overwrites the existing `user_username` field: its value changes
from `"bob"` to the resolver's `"U123"`, so a key present before enrichment
does not keep its value. -/
theorem C5_user_username_overwritten_counterexample :
    getField [("user", Json.str "U123"), ("user_username", Json.str "bob")] "user_username" =
      some (.str "bob") ∧
    enrichWithUserInfo R0 (.obj [("user", .str "U123"), ("user_username", .str "bob")]) =
      .obj [("user", .str "U123"), ("user_username", .str "U123"),
            ("user_display_name", .str "U123")] ∧
    Json.str "U123" ≠ Json.str "bob" := by
  refine ⟨rfl, ?_, by simp⟩
  simp [enrichWithUserInfo, enrichFields, enrichEntry, addUserInfoFields, getField, setField,
    isUserId, truthyOpt, jsTruthy, R0]

/-- Claim C5 (corrected): enrichment never removes a key — every key of an
object reached by a path avoiding `user_username` edges is still present after
enrichment — and every key other than `user_display_name` and `user_username`
keeps its value up to recursive enrichment of nested objects/arrays; those two
keys can be overwritten when the enrichment check fires, as the counterexample
shows for `user_username`.  Paths through `user_display_name` edges need no
exclusion, since a parent whose `user_display_name` holds an object or array
(truthy) can never fire.  Arrays keep their length with elements enriched in
place, so no reordering occurs. -/
theorem C5_enrichment_preserves_other_fields (R : String → IdRecord) (t : Json)
    (p : List PathElem)
    (hp : ∀ k, PathElem.field k ∈ p → k ≠ "user_username") :
    (∀ kvs, getPath t p = some (.obj kvs) →
      (∀ k, (getField kvs k).isSome → (fieldAtPath (enrichWithUserInfo R t) p k).isSome) ∧
      (∀ k v, k ≠ "user_display_name" → k ≠ "user_username" → getField kvs k = some v →
        fieldAtPath (enrichWithUserInfo R t) p k = some (enrichWithUserInfo R v))) ∧
    (∀ l, getPath t p = some (.arr l) →
      getPath (enrichWithUserInfo R t) p = some (.arr (enrichElems R l)) ∧
      (enrichElems R l).length = l.length ∧
      ∀ i : Nat, (enrichElems R l)[i]? = l[i]?.map (enrichWithUserInfo R)) := by
  constructor
  · intro kvs hpath
    have hg := getPath_enrich R p hp t (.obj kvs) hpath rfl
    have henr : enrichWithUserInfo R (.obj kvs) =
        .obj (enrichFields R (addUserInfoFields R kvs)) := by
      simp [enrichWithUserInfo]
    have hfa : ∀ k, fieldAtPath (enrichWithUserInfo R t) p k =
        getField (enrichFields R (addUserInfoFields R kvs)) k := by
      intro k
      unfold fieldAtPath
      rw [hg, henr]
    constructor
    · intro k hk
      rw [hfa, getField_enrichFields]
      have := isSome_getField_addUserInfoFields R kvs k hk
      cases hx : getField (addUserInfoFields R kvs) k
      · rw [hx] at this; cases this
      · rfl
    · intro k v h1 h2 hkv
      rw [hfa, getField_enrichFields, getField_addUserInfoFields_ne R kvs k h1 h2, hkv]
      rfl
  · intro l hpath
    have hg := getPath_enrich R p hp t (.arr l) hpath rfl
    have henr : enrichWithUserInfo R (.arr l) = .arr (enrichElems R l) := by
      simp [enrichWithUserInfo]
    rw [henr] at hg
    exact ⟨hg, enrichElems_length R l, fun i => enrichElems_getElem? R l i⟩

/-- Witness for C5 (amended) at the root object `{a: 1}`: the key `a` is
still present after enrichment with its value unchanged. -/
theorem C5_enrichment_preserves_other_fields_witness :
    (fieldAtPath (enrichWithUserInfo R0 (.obj [("a", .num 1)])) [] "a").isSome = true ∧
    fieldAtPath (enrichWithUserInfo R0 (.obj [("a", .num 1)])) [] "a" = some (.num 1) := by
  have h := (C5_enrichment_preserves_other_fields R0 (.obj [("a", .num 1)]) [] (by simp)).1
    [("a", Json.num 1)] rfl
  refine ⟨h.1 "a" rfl, ?_⟩
  have h2 := h.2 "a" (.num 1) (by decide) (by decide) rfl
  have he : enrichWithUserInfo R0 (Json.num 1) = .num 1 := by
    simp [enrichWithUserInfo]
  rw [h2, he]

/-- Counterexample to claim C6 as stated: on
`{ts: "9999999999999999"}` the key is recognized and the value passes the
numeric predicate, but `1e16` seconds is `1e19` milliseconds, beyond the
`8.64e15` range of a JavaScript `Date`, so `toISOString` throws a `RangeError`
(modelled by `none`) instead of returning the structurally identical converted
tree the claim promises for every JSON value. -/
theorem C6_out_of_range_throws_counterexample :
    isTsKey "ts" = true ∧ isNumericTs "9999999999999999" = true ∧
    convertTimestampsToISO (.obj [("ts", .str "9999999999999999")]) = none :=
  ⟨rfl, rfl, rfl⟩

/-- Claim C6 (corrected): whenever the normalizer returns (i.e. no matching
timestamp exceeds the JavaScript `Date` range; otherwise it throws a
`RangeError`, as the counterexample shows), the result is structurally
identical to the input except that every object field whose key is `ts`,
`thread_ts`, `timestamp` or ends in `_ts` and whose string value matches
`^\d+(\.\d+)?$` is replaced by the ISO-8601 instant at that many seconds since
epoch (millisecond precision); all other fields, including timestamp-named
fields with non-numeric values such as `"not-a-number"`, are unchanged, and
non-object/non-array values pass through. -/
theorem C6_normalizer_meets_field_spec :
    (∀ t t', convertTimestampsToISO t = some t' → NormRel t t') ∧
    convertTimestampsToISO (.obj [("ts", .str "not-a-number")]) =
      some (.obj [("ts", .str "not-a-number")]) :=
  ⟨convert_normRel, rfl⟩

/-- Witness for C6 (amended): the conversion of `{ts: "0"}` satisfies the
specification relation. -/
theorem C6_normalizer_meets_field_spec_witness :
    NormRel (.obj [("ts", .str "0")]) (.obj [("ts", .str "1970-01-01T00:00:00.000Z")]) :=
  C6_normalizer_meets_field_spec.1 _ _ rfl

/-- Counterexample to claim C7 as stated: `slack_post_message` with valid
arguments returns the normalized payload without piping it through the
Response Enricher — the gateway result contains an unresolved `user`
identifier, and enriching it would change the serialized output. -/
theorem C7_post_message_not_enriched_counterexample :
    callTool g0 R0 "slack_post_message"
      (some [("channel_id", .str "C"), ("text", .str "hi")]) = jsonStringify rawMsg ∧
    jsonStringify (enrichWithUserInfo R0 rawMsg) ≠ jsonStringify rawMsg := by
  constructor
  · rfl
  · have he : enrichWithUserInfo R0 rawMsg =
        .obj [("user", .str "U1"), ("user_display_name", .str "U1"),
              ("user_username", .str "U1")] := by
      simp [rawMsg, enrichWithUserInfo, enrichFields, enrichEntry, addUserInfoFields, getField,
        setField, isUserId, truthyOpt, jsTruthy, R0]
    rw [he]
    decide

/-- Claim C7 (corrected): every tool, on valid arguments, invokes its gateway
operation and pipes the raw result through the Timestamp Normalizer, wrapping
the serialized JSON as the text payload; only the three message-reading tools
(`slack_get_channel_history`, `slack_get_thread_replies`,
`slack_search_messages`) additionally pipe the normalized result through the
Response Enricher — the other six return the normalized payload unenriched, as
the counterexample shows. -/
theorem C7_callTool_pipeline (g : Gateway) (R : String → IdRecord) :
    (∀ args raw n, g.listChannels (getField args "limit") (getField args "cursor") = .ok raw →
      convertTimestampsToISO raw = some n →
      callTool g R "slack_list_channels" (some args) = jsonStringify n) ∧
    (∀ args raw n, truthyOpt (getField args "channel_id") = true →
      truthyOpt (getField args "text") = true →
      g.postMessage (getArg args "channel_id") (getArg args "text") = .ok raw →
      convertTimestampsToISO raw = some n →
      callTool g R "slack_post_message" (some args) = jsonStringify n) ∧
    (∀ args raw n, truthyOpt (getField args "channel_id") = true →
      truthyOpt (getField args "thread_ts") = true →
      truthyOpt (getField args "text") = true →
      g.postReply (getArg args "channel_id") (getArg args "thread_ts") (getArg args "text") =
        .ok raw →
      convertTimestampsToISO raw = some n →
      callTool g R "slack_reply_to_thread" (some args) = jsonStringify n) ∧
    (∀ args raw n, truthyOpt (getField args "channel_id") = true →
      truthyOpt (getField args "timestamp") = true →
      truthyOpt (getField args "reaction") = true →
      g.addReaction (getArg args "channel_id") (getArg args "timestamp")
        (getArg args "reaction") = .ok raw →
      convertTimestampsToISO raw = some n →
      callTool g R "slack_add_reaction" (some args) = jsonStringify n) ∧
    (∀ args raw n, truthyOpt (getField args "channel_id") = true →
      g.channelHistory (getArg args "channel_id") (getField args "limit") = .ok raw →
      convertTimestampsToISO raw = some n →
      callTool g R "slack_get_channel_history" (some args) =
        jsonStringify (enrichWithUserInfo R n)) ∧
    (∀ args raw n, truthyOpt (getField args "channel_id") = true →
      truthyOpt (getField args "thread_ts") = true →
      g.threadReplies (getArg args "channel_id") (getArg args "thread_ts") = .ok raw →
      convertTimestampsToISO raw = some n →
      callTool g R "slack_get_thread_replies" (some args) =
        jsonStringify (enrichWithUserInfo R n)) ∧
    (∀ args raw n, g.listUsers (getField args "limit") (getField args "cursor") = .ok raw →
      convertTimestampsToISO raw = some n →
      callTool g R "slack_get_users" (some args) = jsonStringify n) ∧
    (∀ args raw n, truthyOpt (getField args "user_id") = true →
      g.userProfile (getArg args "user_id") = .ok raw →
      convertTimestampsToISO raw = some n →
      callTool g R "slack_get_user_profile" (some args) = jsonStringify n) ∧
    (∀ args raw n, truthyOpt (getField args "query") = true →
      g.searchMessages (getArg args "query") (getField args "count") (getField args "cursor")
        (getField args "highlight") (getField args "sort") (getField args "sort_dir") =
        .ok raw →
      convertTimestampsToISO raw = some n →
      callTool g R "slack_search_messages" (some args) =
        jsonStringify (enrichWithUserInfo R n)) := by
  refine ⟨?_, ?_, ?_, ?_, ?_, ?_, ?_, ?_, ?_⟩
  · intro args raw n hg hc
    simp [callTool, handleTool, hg, hc, ofConverted, bind, Except.bind, pure, Except.pure]
  · intro args raw n h1 h2 hg hc
    simp [callTool, handleTool, h1, h2, hg, hc, ofConverted, bind, Except.bind, pure,
      Except.pure]
  · intro args raw n h1 h2 h3 hg hc
    simp [callTool, handleTool, h1, h2, h3, hg, hc, ofConverted, bind, Except.bind, pure,
      Except.pure]
  · intro args raw n h1 h2 h3 hg hc
    simp [callTool, handleTool, h1, h2, h3, hg, hc, ofConverted, bind, Except.bind, pure,
      Except.pure]
  · intro args raw n h1 hg hc
    simp [callTool, handleTool, h1, hg, hc, ofConverted, bind, Except.bind, pure, Except.pure]
  · intro args raw n h1 h2 hg hc
    simp [callTool, handleTool, h1, h2, hg, hc, ofConverted, bind, Except.bind, pure,
      Except.pure]
  · intro args raw n hg hc
    simp [callTool, handleTool, hg, hc, ofConverted, bind, Except.bind, pure, Except.pure]
  · intro args raw n h1 hg hc
    simp [callTool, handleTool, h1, hg, hc, ofConverted, bind, Except.bind, pure, Except.pure]
  · intro args raw n h1 hg hc
    simp [callTool, handleTool, h1, hg, hc, ofConverted, bind, Except.bind, pure, Except.pure]

/-- Witness for C7 (amended): all nine tools exercised against the concrete
gateway `g0`; the three message-reading tools produce the enriched payload,
the others the merely-normalized one. -/
theorem C7_callTool_pipeline_witness :
    callTool g0 R0 "slack_list_channels" (some []) = jsonStringify rawMsg ∧
    callTool g0 R0 "slack_post_message"
      (some [("channel_id", .str "C"), ("text", .str "hi")]) = jsonStringify rawMsg ∧
    callTool g0 R0 "slack_reply_to_thread"
      (some [("channel_id", .str "C"), ("thread_ts", .str "1.2"), ("text", .str "hi")]) =
      jsonStringify rawMsg ∧
    callTool g0 R0 "slack_add_reaction"
      (some [("channel_id", .str "C"), ("timestamp", .str "1.2"), ("reaction", .str "x")]) =
      jsonStringify rawMsg ∧
    callTool g0 R0 "slack_get_channel_history" (some [("channel_id", .str "C")]) =
      jsonStringify (enrichWithUserInfo R0 rawMsg) ∧
    callTool g0 R0 "slack_get_thread_replies"
      (some [("channel_id", .str "C"), ("thread_ts", .str "1.2")]) =
      jsonStringify (enrichWithUserInfo R0 rawMsg) ∧
    callTool g0 R0 "slack_get_users" (some []) = jsonStringify rawMsg ∧
    callTool g0 R0 "slack_get_user_profile" (some [("user_id", .str "U1")]) =
      jsonStringify rawMsg ∧
    callTool g0 R0 "slack_search_messages" (some [("query", .str "hello")]) =
      jsonStringify (enrichWithUserInfo R0 rawMsg) := by
  have h := C7_callTool_pipeline g0 R0
  exact ⟨h.1 [] rawMsg rawMsg rfl rfl,
    h.2.1 _ rawMsg rawMsg rfl rfl rfl rfl,
    h.2.2.1 _ rawMsg rawMsg rfl rfl rfl rfl rfl,
    h.2.2.2.1 _ rawMsg rawMsg rfl rfl rfl rfl rfl,
    h.2.2.2.2.1 _ rawMsg rawMsg rfl rfl rfl,
    h.2.2.2.2.2.1 _ rawMsg rawMsg rfl rfl rfl rfl,
    h.2.2.2.2.2.2.1 [] rawMsg rawMsg rfl rfl,
    h.2.2.2.2.2.2.2.1 _ rawMsg rawMsg rfl rfl rfl,
    h.2.2.2.2.2.2.2.2 _ rawMsg rawMsg rfl rfl rfl⟩

/-- Claim C8 (confirmed): a `slack_post_message` call missing `channel_id`
returns the error payload naming the missing required arguments rather than
letting an exception propagate, and in general every error thrown in the
tool-call path (missing arguments, gateway failures, unknown tools — anything
`handleTool` raises) is caught at the router boundary and converted into a
serialized `{"error": message}` text payload. -/
theorem C8_callTool_errors_become_payloads :
    (∀ (g : Gateway) (R : String → IdRecord),
      callTool g R "slack_post_message" (some [("text", .str "hi")]) =
        errorPayload "Missing required arguments: channel_id and text") ∧
    (∀ (g : Gateway) (R : String → IdRecord) (name : String)
      (args? : Option (List (String × Json))) (e : String),
      handleTool g R name args? = .error e → callTool g R name args? = errorPayload e) := by
  constructor
  · intro g R
    simp [callTool, handleTool, getField, truthyOpt]
  · intro g R name args? e h
    simp [callTool, h]

/-- Witness for C8: the concrete missing-argument call and a concrete
unknown-tool call, both producing error payloads. -/
theorem C8_callTool_errors_become_payloads_witness :
    callTool g0 R0 "slack_post_message" (some [("text", Json.str "hi")]) =
      errorPayload "Missing required arguments: channel_id and text" ∧
    callTool g0 R0 "slack_frobnicate" (some []) =
      errorPayload "Unknown tool: slack_frobnicate" :=
  ⟨C8_callTool_errors_become_payloads.1 g0 R0,
   C8_callTool_errors_become_payloads.2 g0 R0 "slack_frobnicate" (some []) _ rfl⟩

/-- Claim C9 (confirmed): for every tool name — including tools with no
required arguments such as `slack_list_channels`, and unknown names — a call
whose arguments object is absent returns the "No arguments provided" error
payload instead of invoking the gateway operation, because the handler checks
`request.params.arguments` before dispatching on the tool name. -/
theorem C9_callTool_requires_arguments (g : Gateway) (R : String → IdRecord) (name : String) :
    callTool g R name none = errorPayload "No arguments provided" := by
  simp [callTool, handleTool]

/-- Claim C10 (confirmed): `slack_post_message` with `channel_id` present and
`text` equal to the empty string is rejected with the missing-required-
arguments error for every gateway and every `channel_id` value, because the
presence check `!args.channel_id || !args.text` treats the falsy empty string
as missing — an empty message can never be posted through this tool. -/
theorem C10_empty_text_rejected (g : Gateway) (R : String → IdRecord) (ch : Json) :
    callTool g R "slack_post_message" (some [("channel_id", ch), ("text", .str "")]) =
      errorPayload "Missing required arguments: channel_id and text" := by
  simp [callTool, handleTool, getField, truthyOpt, jsTruthy]
